import Mathlib

/-!
Verification development for the RapidQuest document-search backend.

Strings are modelled as lists of characters (`Str`).  JavaScript numbers are
modelled as `ℕ` where the source only ever holds non-negative integers
(match counts, lengths, indices), as `ℚ` where the source performs exact
float arithmetic on halves (excerpt window arithmetic), and as `ℝ` where the
source computes square roots (cosine similarity, relevance normalization).

JavaScript `Array.prototype.sort` is required by the language specification
to be stable; with a consistent comparator the stable sorted output is
unique, so the stable insertion sort `sortDescBy` below models it exactly.

The lexical code splices raw user tokens into regular expressions
(new RegExp of an unescaped token), so the RegExp constructor can throw a
SyntaxError on tokens such as three open parentheses.  The regex engine is
an external collaborator; it is modelled as an explicit parameter
(`RegEngine`) mapping a raw token to either a failure (the constructor
throws) or a compiled matcher giving the global match count per subject.
The lexical pipelines are Except-valued and propagate the throw exactly
where the source does.  Theorems either hold for every engine, or pin the
engine only on tokens where its behavior is forced (word-character tokens
compile and count literal boundary occurrences).
-/

/-- Character strings of the JavaScript source, as lists of characters. -/
abbrev Str := List Char

/-- Whitespace test used by the JavaScript regexes: space, tab, CR, LF
(the ASCII subset of the \s class that the repository's data can contain). -/
def isWsC (c : Char) : Bool := c = ' ' || c = '\t' || c = '\r' || c = '\n'

/-- Word-character test of the JavaScript \w class: ASCII alphanumerics and
underscore. -/
def isWordC (c : Char) : Bool := c.isAlphanum || c = '_'

/-- ASCII lower-casing of one character, as toLowerCase acts on the
repository's data: the explicit letter table A..Z to a..z. -/
def lowerC (c : Char) : Char :=
  match c with
  | 'A' => 'a' | 'B' => 'b' | 'C' => 'c' | 'D' => 'd' | 'E' => 'e'
  | 'F' => 'f' | 'G' => 'g' | 'H' => 'h' | 'I' => 'i' | 'J' => 'j'
  | 'K' => 'k' | 'L' => 'l' | 'M' => 'm' | 'N' => 'n' | 'O' => 'o'
  | 'P' => 'p' | 'Q' => 'q' | 'R' => 'r' | 'S' => 's' | 'T' => 't'
  | 'U' => 'u' | 'V' => 'v' | 'W' => 'w' | 'X' => 'x' | 'Y' => 'y'
  | 'Z' => 'z'
  | _ => c

/-- String lower-casing: toLowerCase. -/
def toLowerL (s : Str) : Str := s.map lowerC

/-- Left-and-right whitespace trim: String.prototype.trim. -/
def trimL (s : Str) : Str :=
  ((s.dropWhile isWsC).reverse.dropWhile isWsC).reverse

/-- Number of non-whitespace characters of a string. -/
def countNonWs (s : Str) : ℕ := (s.filter (fun c => !isWsC c)).length

/-- Worker for split(/\s+/): the first argument is the word being
accumulated (`some`), or `none` right after a separator run was consumed. -/
def splitWsAux : Option Str → Str → List Str
  | some cur, [] => [cur]
  | none, [] => [[]]
  | some cur, c :: rest =>
      if isWsC c then cur :: splitWsAux none rest
      else splitWsAux (some (cur ++ [c])) rest
  | none, c :: rest =>
      if isWsC c then splitWsAux none rest
      else splitWsAux (some [c]) rest

/-- JavaScript split(/\s+/): maximal whitespace runs separate the tokens; a
leading (resp. trailing) run contributes a leading (resp. trailing) empty
token, and splitting the empty string yields one empty token. -/
def splitWsJS (s : Str) : List Str := splitWsAux (some []) s

/-- Join a token list with single spaces: Array.prototype.join(' '). -/
def joinSp (ws : List Str) : Str := List.intercalate [' '] ws

/-- Clamped substring: String.prototype.substring(s, e) for s ≤ e. -/
def substrN (l : Str) (s e : ℕ) : Str := (l.take e).drop s

/-- Index of the first occurrence of a pattern: String.prototype.indexOf,
with indexOf of the empty pattern being 0. -/
def indexOfSub : Str → Str → Option ℕ
  | s, pat =>
    if pat.isPrefixOf s then some 0
    else match s with
      | [] => none
      | _ :: t => (indexOfSub t pat).map (· + 1)

/-- Stable descending insertion: the new element goes in front of the first
element whose key it reaches or exceeds, hence in front of equal keys that
were originally later. -/
def insertDescBy {α β : Type} [LinearOrder β] (key : α → β) (x : α) :
    List α → List α
  | [] => [x]
  | y :: ys => if key y ≤ key x then x :: y :: ys else y :: insertDescBy key x ys

/-- Stable descending sort by a key, modelling the stable
Array.prototype.sort with comparator (a, b) => b.key - a.key. -/
def sortDescBy {α β : Type} [LinearOrder β] (key : α → β) : List α → List α
  | [] => []
  | x :: xs => insertDescBy key x (sortDescBy key xs)

theorem mem_insertDescBy {α β : Type} [LinearOrder β] (key : α → β) (x : α)
    (l : List α) (z : α) : z ∈ insertDescBy key x l ↔ z = x ∨ z ∈ l := by
  induction l with
  | nil => simp [insertDescBy]
  | cons y ys ih =>
      by_cases h : key y ≤ key x
      · simp [insertDescBy, h]
      · simp [insertDescBy, h, ih]
        tauto

theorem mem_sortDescBy {α β : Type} [LinearOrder β] (key : α → β)
    (l : List α) (z : α) : z ∈ sortDescBy key l ↔ z ∈ l := by
  induction l with
  | nil => simp [sortDescBy]
  | cons x xs ih => simp [sortDescBy, mem_insertDescBy, ih]

theorem length_insertDescBy {α β : Type} [LinearOrder β] (key : α → β) (x : α)
    (l : List α) : (insertDescBy key x l).length = l.length + 1 := by
  induction l with
  | nil => simp [insertDescBy]
  | cons y ys ih =>
      by_cases h : key y ≤ key x <;> simp [insertDescBy, h, ih]

theorem length_sortDescBy {α β : Type} [LinearOrder β] (key : α → β)
    (l : List α) : (sortDescBy key l).length = l.length := by
  induction l with
  | nil => rfl
  | cons x xs ih => simp [sortDescBy, length_insertDescBy, ih]

theorem pairwise_insertDescBy {α β : Type} [LinearOrder β] (key : α → β)
    (x : α) (l : List α) (h : l.Pairwise (fun a b => key b ≤ key a)) :
    (insertDescBy key x l).Pairwise (fun a b => key b ≤ key a) := by
  induction l with
  | nil => simp [insertDescBy]
  | cons y ys ih =>
      rcases List.pairwise_cons.mp h with ⟨hy, hys⟩
      rw [insertDescBy]
      by_cases hc : key y ≤ key x
      · rw [if_pos hc]
        refine List.pairwise_cons.mpr ⟨?_, h⟩
        intro z hz
        rcases List.mem_cons.mp hz with hz | hz
        · subst hz; exact hc
        · exact le_trans (hy z hz) hc
      · rw [if_neg hc]
        refine List.pairwise_cons.mpr ⟨?_, ih hys⟩
        intro z hz
        rcases (mem_insertDescBy key x ys z).mp hz with hz | hz
        · subst hz; exact le_of_not_le hc
        · exact hy z hz

theorem pairwise_sortDescBy {α β : Type} [LinearOrder β] (key : α → β)
    (l : List α) :
    (sortDescBy key l).Pairwise (fun a b => key b ≤ key a) := by
  induction l with
  | nil => simp [sortDescBy]
  | cons x xs ih => exact pairwise_insertDescBy key x _ ih

theorem filter_insertDescBy {α β : Type} [LinearOrder β] (key : α → β)
    (x : α) (l : List α) (s : β) :
    (insertDescBy key x l).filter (fun z => key z = s) =
      if key x = s then x :: l.filter (fun z => key z = s)
      else l.filter (fun z => key z = s) := by
  induction l with
  | nil =>
      by_cases h : key x = s <;> simp [insertDescBy, List.filter, h]
  | cons y ys ih =>
      rw [insertDescBy]
      by_cases hc : key y ≤ key x
      · rw [if_pos hc]
        by_cases h : key x = s <;>
          simp [List.filter_cons, h]
      · rw [if_neg hc]
        have hlt : key x < key y := lt_of_not_le hc
        by_cases h : key x = s
        · have hy : ¬ (key y = s) := by
            intro hy; rw [hy, ← h] at hlt; exact lt_irrefl _ hlt
          simp [List.filter_cons, h, hy, ih]
        · by_cases hy : key y = s <;>
            simp [List.filter_cons, h, hy, ih]

/-- Stability of the modelled sort: for each key value, the elements
carrying that key appear in the output in their input order. -/
theorem filter_sortDescBy {α β : Type} [LinearOrder β] (key : α → β)
    (l : List α) (s : β) :
    (sortDescBy key l).filter (fun z => key z = s) =
      l.filter (fun z => key z = s) := by
  induction l with
  | nil => rfl
  | cons x xs ih =>
      by_cases h : key x = s <;>
        simp [sortDescBy, filter_insertDescBy, h, List.filter_cons, ih]

/-!
Data model of the backend (part_002 schema + search-service.js usage).

A stored embedding column is a TEXT value that search-service.js hands to
JSON.parse; we model the parse outcome of that external parser directly:
`malformed` (JSON.parse throws), `notArray` (parses to a non-array value),
or `arr v` (parses to a numeric array).  An absent value (SQL NULL, or an
undefined property) is `Option.none` around it.
-/

/-- Parse outcome of a stored embedding string. -/
inductive EmbJson : Type
  | malformed : EmbJson
  | notArray : EmbJson
  | arr : List ℝ → EmbJson

/-- Document row as read by search-service.js from the database
(part_002 documents table; uploadedAt as a numeric timestamp). -/
structure Doc : Type where
  id : ℕ
  filename : Str
  content : Str
  wordCount : ℕ
  pageCount : ℕ
  uploadedAt : ℕ
  embedding : Option EmbJson

/-- Rows come back ordered by uploaded_at DESC (part_002 getAllDocuments);
the database list is kept in insertion order, so the query result is its
stable descending sort by upload timestamp.  The SELECT names id,
filename, content, file_size, word_count, page_count and uploaded_at but
not the embedding column, so the rows this query returns never carry an
embedding (doc.embedding is undefined on them — in particular
semanticSearch over these rows never finds one). -/
def getAllDocuments (db : List Doc) : List Doc :=
  sortDescBy (fun d => d.uploadedAt) (db.map (fun d => { d with embedding := none }))

/-- Dot product loop of cosineSimilarity (summation over common indices;
the code only reaches it when the lengths are equal). -/
def dotp : List ℝ → List ℝ → ℝ
  | x :: xs, y :: ys => x * y + dotp xs ys
  | _, _ => 0

/-- Cosine similarity of search-service.js: 0 when either argument is
absent, fails to parse, is not an array, or when the dimensions differ;
otherwise dot(a,b) / (sqrt(normA) * sqrt(normB)), and 0 when that
denominator is zero. -/
noncomputable def cosineSimilarity : Option EmbJson → Option EmbJson → ℝ
  | some (.arr va), some (.arr vb) =>
      if va.length = vb.length then
        if Real.sqrt (dotp va va) * Real.sqrt (dotp vb vb) = 0 then 0
        else dotp va vb / (Real.sqrt (dotp va va) * Real.sqrt (dotp vb vb))
      else 0
  | _, _ => 0

/-!
search-service.js text search pipeline.
-/

/-- One matched chunk record of textSearch. -/
structure ChunkMatch : Type where
  text : Str
  score : ℕ
  matchedWords : List Str
deriving DecidableEq

/-- Text-search result object with the integer score it actually carries
(all lexical scores are sums of match counts). -/
structure TextResultN : Type where
  id : ℕ
  filename : Str
  content : Str
  wordCount : ℕ
  pageCount : ℕ
  uploadedAt : ℕ
  score : ℕ
  chunks : List ChunkMatch
deriving DecidableEq

/-- Search result as returned by the top-level search: a JavaScript number
score (ℝ), and chunk details only present on the lexical path. -/
structure SearchResult : Type where
  id : ℕ
  filename : Str
  content : Str
  wordCount : ℕ
  pageCount : ℕ
  uploadedAt : ℕ
  score : ℝ
  chunks : Option (List ChunkMatch)

/-- Reinterpret a lexical result: its integer-valued score is the same
JavaScript number viewed in ℝ. -/
def toSearchResult (r : TextResultN) : SearchResult :=
  ⟨r.id, r.filename, r.content, r.wordCount, r.pageCount, r.uploadedAt,
    (r.score : ℝ), some r.chunks⟩

/-- Word-splitting chunk loop of splitTextIntoChunks, with explicit fuel
(one unit per iteration; the step is at least 1 word, so length + 1 units
always suffice).  The source loops forever when overlap ≥ chunkSize; it is
only ever called with 1000/100 and 500/50, and the model returns [] in the
degenerate case. -/
def sttcLoopF : ℕ → List Str → ℕ → ℕ → ℕ → List Str
  | 0, _, _, _, _ => []
  | fuel + 1, words, cs, ov, i =>
      if i < words.length ∧ ov < cs then
        let chunk := joinSp ((words.drop i).take cs)
        let rest := sttcLoopF fuel words cs ov (i + (cs - ov))
        if trimL chunk ≠ [] then chunk :: rest else rest
      else []

/-- splitTextIntoChunks of search-service.js: split on whitespace, slice
windows of chunkSize words every chunkSize - overlap words, keep windows
that are non-blank. -/
def splitTextIntoChunks (text : Str) (cs ov : ℕ) : List Str :=
  let words := splitWsJS text
  sttcLoopF (words.length + 1) words cs ov 0

/-- Query tokens of textSearch: lower-cased whitespace split, keeping only
tokens longer than 2 characters. -/
def queryWordsOf (q : Str) : List Str :=
  (splitWsJS (toLowerL q)).filter (fun w => 2 < w.length)

/-- Word boundary to the left: string start or a non-word character. -/
def boundL : Option Char → Bool
  | none => true
  | some p => !isWordC p

/-- Word boundary to the right: string end or a non-word character. -/
def boundR : Str → Bool
  | [] => true
  | d :: _ => !isWordC d

/-- Scan for \b<word>\b occurrences, tracking the previous character for
the left boundary. -/
def countWordBAux (w : Str) (prev : Option Char) : Str → ℕ
  | [] => 0
  | c :: rest =>
      (if w.isPrefixOf (c :: rest) &&
          boundL prev && boundR ((c :: rest).drop w.length)
        then 1 else 0)
      + countWordBAux w (some c) rest

/-- Literal word-boundary occurrence count: positions where the word
occurs flanked by word boundaries on both sides.  For a pattern made only
of word characters this is exactly what the compiled regex \b<w>\b with
the g flag counts (no metacharacters to reinterpret, and two
boundary-anchored occurrences of a word-character token cannot overlap,
so the g-flag scan skips nothing).  It is NOT the behavior of the source
on arbitrary tokens — those go through the engine parameter below. -/
def countWordB (w : Str) (s : Str) : ℕ := countWordBAux w none s

/-- The regular-expression engine as the lexical code consumes it: for a
raw token, constructing the regex either throws (none — for example the
token of three open parentheses yields an unterminated group, and c
followed by two plus signs a quantifier with nothing to repeat) or yields
a compiled matcher, taken as its global match count per subject.  The
JavaScript engine is a fixed external collaborator; theorems below either
hold for every engine or pin it only on tokens where its behavior is
forced. -/
abbrev RegEngine := Str → Option (Str → ℕ)

/-- The engine fragment forced on word-character tokens: such a pattern
always compiles and \b<w>\b counts the literal boundary occurrences.
Used to instantiate concrete evaluations whose query tokens are all of
this shape (where litB provably agrees with the real engine). -/
def litB : RegEngine := fun w => some (fun s => countWordB w s)

/-- Decidable equality for Except values, for evaluating closed
computations. -/
instance {ε α : Type} [DecidableEq ε] [DecidableEq α] :
    DecidableEq (Except ε α) := fun x y =>
  match x, y with
  | .ok a, .ok b =>
      if h : a = b then .isTrue (by rw [h])
      else .isFalse (fun hh => h (Except.ok.inj hh))
  | .error e, .error f =>
      if h : e = f then .isTrue (by rw [h])
      else .isFalse (fun hh => h (Except.error.inj hh))
  | .ok _, .error _ => .isFalse (fun hh => Except.noConfusion hh)
  | .error _, .ok _ => .isFalse (fun hh => Except.noConfusion hh)

/-- Per-chunk inner loop of textSearch: for each query word, construct
the regex (throwing on an invalid token) and add the match count,
recording words that matched at least once.  The throw happens at the
first invalid token reached, exactly as in the source. -/
def chunkWordsE (reg : RegEngine) (chunk : Str) :
    List Str → ℕ × List Str → Except String (ℕ × List Str)
  | [], acc => .ok acc
  | w :: ws, acc =>
      match reg w with
      | none => .error "SyntaxError: invalid regular expression"
      | some f =>
          let n := f chunk
          chunkWordsE reg chunk ws
            (if 0 < n then (acc.1 + n, acc.2 ++ [w]) else acc)

/-- Score of one chunk: the word loop started at zero. -/
def chunkScoreOfE (reg : RegEngine) (qws : List Str) (chunk : Str) :
    Except String (ℕ × List Str) :=
  chunkWordsE reg chunk qws (0, [])

/-- Chunk loop of one document, keeping chunks with a positive score; an
invalid token throws out of the whole loop. -/
def docChunksE (reg : RegEngine) (qws : List Str) :
    List Str → List ChunkMatch → Except String (List ChunkMatch)
  | [], acc => .ok acc
  | ch :: chs, acc =>
      match chunkScoreOfE reg qws ch with
      | .error e => .error e
      | .ok sc =>
          docChunksE reg qws chs
            (if 0 < sc.1 then acc ++ [⟨ch, sc.1, sc.2⟩] else acc)

/-- Matched chunks of one document: 500/50 chunking of the lower-cased
content, then the chunk loop. -/
def docMatchedChunksE (reg : RegEngine) (qws : List Str) (cl : Str) :
    Except String (List ChunkMatch) :=
  docChunksE reg qws (splitTextIntoChunks cl 500 50) []

/-- Sum of the chunk scores (the reduce over matchedChunks). -/
def sumChunkScores (l : List ChunkMatch) : ℕ :=
  l.foldl (fun acc c => acc + c.score) 0

/-- Document loop of textSearch in document order: documents with truthy
content and at least one matched chunk, scored by the sum of chunk
scores, carrying the top 3 chunks by descending chunk score; a thrown
SyntaxError propagates out of textSearch. -/
def textDocsE (reg : RegEngine) (qws : List Str) :
    List Doc → List TextResultN → Except String (List TextResultN)
  | [], acc => .ok acc
  | d :: ds, acc =>
      if d.content ≠ [] then
        match docMatchedChunksE reg qws (toLowerL d.content) with
        | .error e => .error e
        | .ok mc =>
            if mc ≠ [] then
              let sorted := sortDescBy (fun c : ChunkMatch => c.score) mc
              textDocsE reg qws ds
                (acc ++ [⟨d.id, d.filename, d.content, d.wordCount,
                  d.pageCount, d.uploadedAt, sumChunkScores sorted,
                  sorted.take 3⟩])
            else textDocsE reg qws ds acc
      else textDocsE reg qws ds acc

/-- Candidate results of textSearch, before sorting. -/
def textCandidatesE (reg : RegEngine) (q : Str) (docs : List Doc) :
    Except String (List TextResultN) :=
  textDocsE reg (queryWordsOf q) docs []

/-- textSearch of search-service.js up to the result records: candidates
sorted by descending score (stable), capped at limit. -/
def textSearchE (reg : RegEngine) (q : Str) (docs : List Doc) (lim : ℕ) :
    Except String (List TextResultN) :=
  match textCandidatesE reg q docs with
  | .error e => .error e
  | .ok cands =>
      .ok ((sortDescBy (fun r : TextResultN => r.score) cands).take lim)

/-- The same result with its scores read as JavaScript numbers. -/
def textSearch (reg : RegEngine) (q : Str) (docs : List Doc) (lim : ℕ) :
    Except String (List SearchResult) :=
  match textSearchE reg q docs lim with
  | .error e => .error e
  | .ok core => .ok (core.map toSearchResult)

/-!
Semantic path and the top-level search of search-service.js.

The OpenAI client is modelled as an optional embedding function: `none`
when no API key is configured (this.openai === null); when present, a call
on a query either produces a parsed embedding vector (the code stores
JSON.stringify of a numeric array, which always parses back to that array)
or fails (`none`), covering thrown provider errors.
-/

/-- An available embedding provider: per-call result or failure. -/
abbrev EmbedFn := Str → Option (List ℝ)

/-- generateEmbedding: null without a client, null on a failed call,
otherwise the (stringified) embedding. -/
def generateEmbedding (provider : Option EmbedFn) (text : Str) :
    Option (List ℝ) :=
  match provider with
  | none => none
  | some f => f text

/-- One semantic result record as pushed by semanticSearch. -/
def semResultOf (d : Doc) (sim : ℝ) : SearchResult :=
  ⟨d.id, d.filename, d.content, d.wordCount, d.pageCount, d.uploadedAt,
    sim, none⟩

/-- Candidate loop of semanticSearch: documents with a truthy embedding
value whose cosine similarity with the query embedding exceeds the 0.1
minimum-similarity threshold. -/
noncomputable def semCandidates (qe : List ℝ) (docs : List Doc) :
    List SearchResult :=
  docs.filterMap
    (fun d =>
      match d.embedding with
      | none => none
      | some e =>
          let sim := cosineSimilarity (some (.arr qe)) (some e)
          if 0.1 < sim then some (semResultOf d sim) else none)

/-- Ranked semantic results: stable descending sort by similarity, capped
at limit. -/
noncomputable def semanticResults (qe : List ℝ) (docs : List Doc) (lim : ℕ) :
    List SearchResult :=
  (sortDescBy (fun r : SearchResult => r.score) (semCandidates qe docs)).take lim

/-- semanticSearch: throws without a client, throws when the query
embedding fails, otherwise returns the ranked semantic results. -/
noncomputable def semanticSearch (provider : Option EmbedFn) (q : Str)
    (docs : List Doc) (lim : ℕ) : Except String (List SearchResult) :=
  match provider with
  | none => .error "OpenAI not configured for semantic search"
  | some _ =>
      match generateEmbedding provider q with
      | none => .error "Failed to generate query embedding"
      | some qe => .ok (semanticResults qe docs lim)

/-- Top-level search of search-service.js: semantic when a client exists,
falling back to textSearch when the semantic path throws; textSearch
alone without a client.  A SyntaxError thrown by textSearch escapes the
try block; the outer catch re-runs textSearch, which fails identically,
and rethrows that failure — so a lexical throw becomes the search's own
failure. -/
noncomputable def search (reg : RegEngine) (provider : Option EmbedFn)
    (q : Str) (docs : List Doc) (lim : ℕ) :
    Except String (List SearchResult) :=
  match provider with
  | none =>
      match textSearch reg q docs lim with
      | .ok r => .ok r
      | .error _ =>
          match textSearch reg q docs lim with
          | .ok r => .ok r
          | .error e2 => .error e2
  | some _ =>
      match semanticSearch provider q docs lim with
      | .ok r => .ok r
      | .error _ =>
          match textSearch reg q docs lim with
          | .ok r => .ok r
          | .error _ =>
              match textSearch reg q docs lim with
              | .ok r => .ok r
              | .error e2 => .error e2

/-!
HTTP search endpoints of the express server (part_005).
-/

/-- Response of a search endpoint: HTTP status, optional error message,
result list. -/
structure SearchHttpResp : Type where
  status : ℕ
  error : Option String
  results : List SearchResult

/-- POST /api/search: 400 when the query is falsy or trims to empty, 400
when the trimmed query is shorter than 2 characters, otherwise the service
result (500 should it fail). -/
noncomputable def apiSearchPost (reg : RegEngine) (provider : Option EmbedFn)
    (q : Str) (lim : ℕ) (db : List Doc) : SearchHttpResp :=
  if (trimL q).length = 0 then ⟨400, some "Search query is required", []⟩
  else if (trimL q).length < 2 then ⟨400, some "Search query too short", []⟩
  else
    match search reg provider q (getAllDocuments db) lim with
    | .ok rs => ⟨200, none, rs⟩
    | .error _ => ⟨500, some "Search failed", []⟩

/-- GET /search: 400 only when the query is falsy or trims to empty,
otherwise the service result (500 should it fail). -/
noncomputable def searchGet (reg : RegEngine) (provider : Option EmbedFn)
    (q : Str) (lim : ℕ) (db : List Doc) : SearchHttpResp :=
  if (trimL q).length = 0 then ⟨400, some "Search query is required", []⟩
  else
    match search reg provider q (getAllDocuments db) lim with
    | .ok rs => ⟨200, none, rs⟩
    | .error _ => ⟨500, some "Search failed", []⟩

/-!
Chunker of the document processor (part_004): character-based, with
sentence- and word-boundary helpers.
-/

/-- Sentence-boundary test at index i: a '.', '!' or '?' character followed
by whitespace, or sitting at index sEnd - 1 (out-of-range reads are
non-matches, as the JavaScript regex test on undefined is false). -/
def sentTest (ct : Str) (sEnd i : ℕ) : Bool :=
  (match ct.get? i with
    | some c => c = '.' || c = '!' || c = '?'
    | none => false)
  && (decide (i = sEnd - 1) ||
      (match ct.get? (i + 1) with
        | some c => isWsC c
        | none => false))

/-- Descending scan of findSentenceBoundary: from i down to sStart + 1,
returning one past the first hit. -/
def sentScan (ct : Str) (sEnd : ℕ) : ℕ → ℕ → Option ℕ
  | 0, _ => none
  | i + 1, sStart =>
      if i + 1 ≤ sStart then none
      else if sentTest ct sEnd (i + 1) then some (i + 2)
      else sentScan ct sEnd i sStart

/-- findSentenceBoundary: look for a sentence end in the last 100
characters before the cut (and up to 50 past it), defaulting to the cut. -/
def findSentenceBoundary (ct : Str) (start end1 : ℕ) : ℕ :=
  let sStart := max (end1 - 100) start
  let sEnd := min (end1 + 50) ct.length
  match sentScan ct sEnd sEnd sStart with
  | some r => r
  | none => end1

/-- Descending scan of findWordBoundary: from i down to lo + 1, returning
the first index holding whitespace preceded by non-whitespace. -/
def wordScan (ct : Str) : ℕ → ℕ → Option ℕ
  | 0, _ => none
  | i + 1, lo =>
      if i + 1 ≤ lo then none
      else if (match ct.get? (i + 1) with
                | some c => isWsC c
                | none => false)
              && !(match ct.get? i with
                | some c => isWsC c
                | none => false)
        then some (i + 1)
      else wordScan ct i lo

/-- findWordBoundary: scan at most 50 characters back from the position,
defaulting to the position itself.  (It scans downward, so it never
returns a value above the position — the caller's start > wordStart
branch is dead code, modelled nonetheless.) -/
def findWordBoundary (ct : Str) (pos : ℕ) : ℕ :=
  match wordScan ct pos (pos - 50) with
  | some r => r
  | none => pos

/-- Main chunking loop of splitIntoChunks, with explicit fuel (one unit
per iteration; start strictly increases every iteration, so length + 1
units always suffice). -/
def chunksLoopF : ℕ → Str → ℕ → ℕ → ℕ → List Str
  | 0, _, _, _, _ => []
  | fuel + 1, ct, cs, ov, start =>
      if start < ct.length then
        let end1 := start + cs
        let end2 :=
          if end1 < ct.length then
            let se := findSentenceBoundary ct start end1
            if start < se then se else end1
          else end1
        let ws := findWordBoundary ct start
        let start2 := if 0 < start ∧ start < ws ∧ ws < start + 50 then ws else start
        let chunk := substrN ct start2 end2
        let rest := chunksLoopF fuel ct cs ov (max (start2 + cs - ov) (start2 + 1))
        if trimL chunk ≠ [] then trimL chunk :: rest else rest
      else []

/-- Text normalization of splitIntoChunks: CRLF to LF, tabs to spaces,
whitespace runs to single spaces, trim. -/
def crlfNorm : Str → Str
  | '\r' :: '\n' :: rest => '\n' :: crlfNorm rest
  | c :: rest => c :: crlfNorm rest
  | [] => []

/-- Whitespace-run collapsing of the /\s+/g replace; the flag records
whether the previous character was inside a whitespace run. -/
def collapseAux : Bool → Str → Str
  | _, [] => []
  | inWs, c :: rest =>
      if isWsC c then
        if inWs then collapseAux true rest
        else ' ' :: collapseAux true rest
      else c :: collapseAux false rest

/-- Normalized text as splitIntoChunks prepares it. -/
def normalizeText (t : Str) : Str :=
  trimL (collapseAux false ((crlfNorm t).map (fun c => if c = '\t' then ' ' else c)))

/-- splitIntoChunks of the document processor: [] for empty input, a single
chunk when the normalized text is no longer than the chunk size, otherwise
the boundary-aware loop. -/
def splitIntoChunks (text : Str) (cs ov : ℕ) : List Str :=
  if text = [] then []
  else
    let ct := normalizeText text
    if ct.length ≤ cs then [ct]
    else chunksLoopF (ct.length + 1) ct cs ov 0

/-!
The second-generation SearchService (part_003): relevance scoring, basic
content search and excerpt building.
-/

/-- Substring containment: String.prototype.includes, true for the empty
pattern. -/
def containsSub : Str → Str → Bool
  | pat, s =>
    if pat.isPrefixOf s then true
    else match s with
      | [] => false
      | _ :: t => containsSub pat t

/-- Adjacent-bigram bonus loop: 2 points for each adjacent query-word pair
found verbatim (joined by one space) in the content. -/
def bigramBonus (cl : Str) : List Str → ℕ
  | w1 :: w2 :: rest =>
      (if containsSub (w1 ++ [' '] ++ w2) cl then 2 else 0) + bigramBonus cl (w2 :: rest)
  | _ => 0

/-- Word-count loop of calculateRelevanceScore: for each query word
longer than 2 characters, construct the plain regex from the raw word
(throwing on an invalid token) and add its global match count on the
lower-cased content. -/
def calcWordsE (regP : RegEngine) (cl : Str) :
    List Str → ℕ → Except String ℕ
  | [], acc => .ok acc
  | w :: ws, acc =>
      if 2 < w.length then
        match regP w with
        | none => .error "SyntaxError: invalid regular expression"
        | some f => calcWordsE regP cl ws (acc + f cl)
      else calcWordsE regP cl ws acc

/-- Raw (pre-normalization) relevance score of calculateRelevanceScore:
phrase bonus 10, then the per-word counts through the engine, then the
bigram bonus — an integer when it does not throw. -/
def rawRelevanceE (regP : RegEngine) (q c : Str) : Except String ℕ :=
  let cl := toLowerL c
  let qws := splitWsJS (toLowerL q)
  match calcWordsE regP cl qws
      (if containsSub (toLowerL q) cl then 10 else 0) with
  | .error e => .error e
  | .ok sc => .ok (sc + bigramBonus cl qws)

/-- calculateRelevanceScore of part_003: the raw score divided by the
square root of the content word count (the word count of a split is never
zero, but the source's guard is kept). -/
noncomputable def calculateRelevanceScoreE (regP : RegEngine) (q c : Str) :
    Except String ℝ :=
  match rawRelevanceE regP q c with
  | .error e => .error e
  | .ok raw =>
      let cw := (splitWsJS (toLowerL c)).length
      .ok (if 0 < cw then (raw : ℝ) / Real.sqrt cw else (raw : ℝ))

/-- Chunk row as basicContentSearch reads it from the database. -/
structure P3Chunk : Type where
  id : ℕ
  documentId : ℕ
  chunkIndex : ℕ
  filename : Str
  content : Str
deriving DecidableEq

/-- Chunk row with the integer contains-count score attached. -/
structure P3ScoredN : Type where
  id : ℕ
  documentId : ℕ
  chunkIndex : ℕ
  filename : Str
  content : Str
  score : ℕ
deriving DecidableEq

/-- basicContentSearch of part_003 over the chunk rows the database call
returned: one point per query word contained in the chunk, chunks with
score 0 dropped, stable descending sort, capped at limit. -/
def basicContentSearch (q : Str) (chunks : List P3Chunk) (lim : ℕ) :
    List P3ScoredN :=
  let qws := splitWsJS (toLowerL q)
  ((chunks.map
      (fun ch =>
        let cl := toLowerL ch.content
        let sc := qws.foldl (fun acc w => acc + if containsSub w cl then 1 else 0) 0
        P3ScoredN.mk ch.id ch.documentId ch.chunkIndex ch.filename ch.content sc))
    |>.filter (fun ch => 0 < ch.score)
    |> sortDescBy (fun ch : P3ScoredN => ch.score)).take lim

/-- The ellipsis marker used by createExcerpt. -/
def dotsE : Str := ['.', '.', '.']

/-- Floor of a non-negative rational, as the JavaScript substring argument
truncation. -/
def floorQ (x : ℚ) : ℕ := (⌊x⌋).toNat

/-- createExcerpt of part_003: center a maxLength window on the first
case-insensitive occurrence of the query, clipped to the text, with
ellipsis markers by the raw (possibly fractional) start and end offsets;
without an occurrence, the first maxLength characters with a trailing
marker when truncated.  The halves arising from maxLength / 2 are exact in
JavaScript floats, so ℚ models the arithmetic exactly. -/
def createExcerpt (content q : Str) (maxLength : ℕ) : Str :=
  match indexOfSub (toLowerL content) (toLowerL q) with
  | some idx =>
      let startQ : ℚ := max 0 ((idx : ℚ) - (maxLength : ℚ) / 2)
      let endQ : ℚ := min (content.length : ℚ) (startQ + (maxLength : ℚ))
      let ex := substrN content (floorQ startQ) (floorQ endQ)
      let ex1 := if 0 < startQ then dotsE ++ ex else ex
      if endQ < (content.length : ℚ) then ex1 ++ dotsE else ex1
  | none =>
      substrN content 0 maxLength
      ++ (if maxLength < content.length then dotsE else [])

/-- Rounding to two decimals: Math.round(x * 100) / 100. -/
noncomputable def rnd2 (x : ℝ) : ℝ := (⌊x * 100 + 1 / 2⌋ : ℝ) / 100

/-- Result row of the part_003 search as sent to the client. -/
structure P3Result : Type where
  id : ℕ
  documentId : ℕ
  chunkIndex : ℕ
  filename : Str
  content : Str
  score : ℝ
  relevanceScore : ℝ
  excerpt : Str

/-- A basic-search row viewed as a result row (score as a number, no
relevance or excerpt yet — the enhancement fills those). -/
def p3OfScored (ch : P3ScoredN) : P3Result :=
  ⟨ch.id, ch.documentId, ch.chunkIndex, ch.filename, ch.content,
    (ch.score : ℝ), 0, []⟩

/-- Enhancement step of part_003 search: attach the rounded lexical
relevance score and a 200-character excerpt; an invalid long query word
makes the relevance computation throw. -/
noncomputable def enhanceP3E (regP : RegEngine) (q : Str) (r : P3Result) :
    Except String P3Result :=
  match calculateRelevanceScoreE regP q r.content with
  | .error e => .error e
  | .ok rel =>
      .ok { r with
        relevanceScore := rnd2 rel,
        excerpt := createExcerpt r.content q 200 }

/-- Enhancement of the whole base list, left to right; the first throw
escapes the map, as in the source. -/
noncomputable def enhanceAllE (regP : RegEngine) (q : Str) :
    List P3Result → Except String (List P3Result)
  | [] => .ok []
  | r :: rs =>
      match enhanceP3E regP q r with
      | .error e => .error e
      | .ok r2 =>
          match enhanceAllE regP q rs with
          | .error e => .error e
          | .ok rest => .ok (r2 :: rest)

/-- search of part_003, over the rows its database collaborator returned:
similarity rows when a query embedding exists, basic content rows
otherwise; all rows enhanced, then ranked by the lexical relevance score
alone.  No filter is applied after the re-scoring: a row whose relevance
score is 0 stays in the output.  (The similarity rows stand for the
searchBySimilarity storage call, out of this model's scope like the rest
of the SQL engine.) -/
noncomputable def part3search (regP : RegEngine)
    (queryEmb : Option (List ℝ)) (simRows : List P3Result)
    (chunks : List P3Chunk) (q : Str) (lim : ℕ) :
    Except String (List P3Result) :=
  let base :=
    match queryEmb with
    | some _ => simRows
    | none => (basicContentSearch q chunks lim).map p3OfScored
  match enhanceAllE regP q base with
  | .error e => .error e
  | .ok enhanced =>
      .ok (sortDescBy (fun r : P3Result => r.relevanceScore) enhanced)

/-!
Shared lemmas about the string primitives.
-/

theorem lowerC_ws (c : Char) : isWsC (lowerC c) = isWsC c := by
  unfold lowerC
  split <;> rfl

theorem countNonWs_toLowerL (s : Str) : countNonWs (toLowerL s) = countNonWs s := by
  induction s with
  | nil => rfl
  | cons c t ih =>
      simp only [toLowerL, countNonWs, List.map_cons, List.filter_cons] at *
      rw [lowerC_ws c]
      cases h : isWsC c <;> simp [h, ih]

theorem countNonWs_cons_ws (c : Char) (t : Str) (h : isWsC c = true) :
    countNonWs (c :: t) = countNonWs t := by
  simp [countNonWs, List.filter_cons, h]

theorem countNonWs_cons_nonws (c : Char) (t : Str) (h : isWsC c = false) :
    countNonWs (c :: t) = countNonWs t + 1 := by
  simp [countNonWs, List.filter_cons, h]

theorem countNonWs_zero_allWs (l : Str) (h : countNonWs l = 0) :
    ∀ c ∈ l, isWsC c = true := by
  intro c hc
  by_contra hne
  have hb : isWsC c = false := by
    cases hcc : isWsC c
    · rfl
    · exact absurd hcc hne
  have hmem : c ∈ l.filter (fun c => !isWsC c) := by
    simp [List.mem_filter, hc, hb]
  rw [countNonWs, List.length_eq_zero] at h
  rw [h] at hmem
  simp at hmem

theorem dropWhile_of_allP {p : Char → Bool} (w r : Str)
    (h : ∀ c ∈ w, p c = true) :
    List.dropWhile p (w ++ r) = List.dropWhile p r := by
  induction w with
  | nil => rfl
  | cons c t ih =>
      have hc := h c (by simp)
      simp only [List.cons_append, List.dropWhile_cons, hc, if_true]
      exact ih (fun d hd => h d (by simp [hd]))

theorem countNonWs_one_decomp (q : Str) (h : countNonWs q = 1) :
    ∃ w1 x w2, q = w1 ++ x :: w2 ∧ (∀ c ∈ w1, isWsC c = true) ∧
      isWsC x = false ∧ (∀ c ∈ w2, isWsC c = true) := by
  induction q with
  | nil => simp [countNonWs] at h
  | cons c t ih =>
      cases hc : isWsC c
      · rw [countNonWs_cons_nonws c t hc] at h
        have ht : countNonWs t = 0 := by omega
        exact ⟨[], c, t, by simp, by simp, hc, countNonWs_zero_allWs t ht⟩
      · rw [countNonWs_cons_ws c t hc] at h
        rcases ih h with ⟨w1, x, w2, hq, hw1, hx, hw2⟩
        refine ⟨c :: w1, x, w2, by simp [hq], ?_, hx, hw2⟩
        intro d hd
        rcases List.mem_cons.mp hd with hd | hd
        · subst hd; exact hc
        · exact hw1 d hd

theorem trimL_short (q : Str) (h : countNonWs q < 2) : (trimL q).length < 2 := by
  interval_cases hcq : countNonWs q
  · have hall := countNonWs_zero_allWs q hcq
    have h1 : q.dropWhile isWsC = [] := by
      have := dropWhile_of_allP q [] hall
      simpa using this
    simp [trimL, h1]
  · rcases countNonWs_one_decomp q hcq with ⟨w1, x, w2, hq, hw1, hx, hw2⟩
    subst hq
    have h1 : (w1 ++ x :: w2).dropWhile isWsC = x :: w2 := by
      rw [dropWhile_of_allP w1 (x :: w2) hw1]
      simp [List.dropWhile_cons, hx]
    have h2 : (x :: w2).reverse = w2.reverse ++ [x] := by simp
    have h3 : (w2.reverse ++ [x]).dropWhile isWsC = [x] := by
      rw [dropWhile_of_allP w2.reverse [x] (by intro c hc; exact hw2 c (by simpa using hc))]
      simp [List.dropWhile_cons, hx]
    simp [trimL, h1, h2, h3]

theorem splitWsAux_token_len (s : Str) :
    (∀ cur t, t ∈ splitWsAux (some cur) s → t.length ≤ cur.length + countNonWs s) ∧
    (∀ t, t ∈ splitWsAux none s → t.length ≤ countNonWs s) := by
  induction s with
  | nil =>
      constructor
      · intro cur t ht
        simp [splitWsAux] at ht
        simp [ht, countNonWs]
      · intro t ht
        simp [splitWsAux] at ht
        simp [ht, countNonWs]
  | cons c rest ih =>
      obtain ⟨ihS, ihN⟩ := ih
      constructor
      · intro cur t ht
        by_cases hc : isWsC c = true
        · simp only [splitWsAux, if_pos hc] at ht
          rw [countNonWs_cons_ws c rest hc]
          rcases List.mem_cons.mp ht with ht | ht
          · subst ht; omega
          · have := ihN t ht
            omega
        · have hcf : isWsC c = false := eq_false_of_ne_true hc
          simp only [splitWsAux, if_neg hc] at ht
          rw [countNonWs_cons_nonws c rest hcf]
          have := ihS (cur ++ [c]) t ht
          simp at this
          omega
      · intro t ht
        by_cases hc : isWsC c = true
        · simp only [splitWsAux, if_pos hc] at ht
          rw [countNonWs_cons_ws c rest hc]
          exact ihN t ht
        · have hcf : isWsC c = false := eq_false_of_ne_true hc
          simp only [splitWsAux, if_neg hc] at ht
          rw [countNonWs_cons_nonws c rest hcf]
          have := ihS [c] t ht
          simp at this
          omega

theorem splitWsJS_token_len (s : Str) (t : Str) (ht : t ∈ splitWsJS s) :
    t.length ≤ countNonWs s := by
  have := (splitWsAux_token_len s).1 [] t ht
  simpa using this

theorem queryWordsOf_nil (q : Str) (h : countNonWs q < 2) :
    queryWordsOf q = [] := by
  rw [queryWordsOf, List.filter_eq_nil_iff]
  intro t ht
  have := splitWsJS_token_len (toLowerL q) t ht
  rw [countNonWs_toLowerL] at this
  simp
  omega

theorem docChunksE_nil (reg : RegEngine) (chs : List Str)
    (acc : List ChunkMatch) : docChunksE reg [] chs acc = .ok acc := by
  induction chs generalizing acc with
  | nil => rfl
  | cons ch chs ih =>
      simp only [docChunksE, chunkScoreOfE, chunkWordsE]
      exact ih acc

theorem textDocsE_nil (reg : RegEngine) (ds : List Doc)
    (acc : List TextResultN) : textDocsE reg [] ds acc = .ok acc := by
  induction ds generalizing acc with
  | nil => rfl
  | cons d ds ih =>
      by_cases hc : d.content ≠ []
      · simp only [textDocsE, if_pos hc, docMatchedChunksE, docChunksE_nil]
        exact ih acc
      · simp only [textDocsE, if_neg hc]
        exact ih acc

theorem textCandidatesE_nil (reg : RegEngine) (q : Str) (docs : List Doc)
    (h : queryWordsOf q = []) : textCandidatesE reg q docs = .ok [] := by
  rw [textCandidatesE, h]
  exact textDocsE_nil reg docs []

theorem textSearch_nil (reg : RegEngine) (q : Str) (docs : List Doc)
    (lim : ℕ) (h : queryWordsOf q = []) :
    textSearch reg q docs lim = .ok [] := by
  rw [textSearch, textSearchE, textCandidatesE_nil reg q docs h]
  simp [sortDescBy]

/-!
Shared lemmas about the similarity metric and result membership.
-/

theorem dotp_comm (a b : List ℝ) : dotp a b = dotp b a := by
  induction a generalizing b with
  | nil => cases b <;> rfl
  | cons x xs ih =>
      cases b with
      | nil => rfl
      | cons y ys => simp [dotp, ih, mul_comm]

theorem dotp_self_nonneg (v : List ℝ) : 0 ≤ dotp v v := by
  induction v with
  | nil => simp [dotp]
  | cons x xs ih =>
      simp only [dotp]
      have := mul_self_nonneg x
      linarith

theorem mul_pos_of_ne_zero_sq {y : ℝ} (h : y ≠ 0) : 0 < y * y := by
  rcases lt_or_gt_of_ne h with hlt | hgt
  · exact mul_pos_of_neg_of_neg hlt hlt
  · exact mul_pos hgt hgt

theorem dotp_self_pos (v : List ℝ) (h : ∃ x ∈ v, x ≠ 0) : 0 < dotp v v := by
  induction v with
  | nil => simp at h
  | cons x xs ih =>
      simp only [dotp]
      rcases h with ⟨y, hy, hyne⟩
      rcases List.mem_cons.mp hy with hy | hy
      · subst hy
        have h1 : 0 < y * y := mul_pos_of_ne_zero_sq hyne
        have h2 := dotp_self_nonneg xs
        linarith
      · have h1 := ih ⟨y, hy, hyne⟩
        have h2 := mul_self_nonneg x
        linarith

theorem dotp_self_zero (v : List ℝ) (h : ∀ x ∈ v, x = 0) : dotp v v = 0 := by
  induction v with
  | nil => rfl
  | cons x xs ih =>
      have hx : x = 0 := h x (by simp)
      simp [dotp, hx, ih (fun y hy => h y (by simp [hy]))]

theorem mem_semanticResults (qe : List ℝ) (docs : List Doc) (lim : ℕ)
    (r : SearchResult) (hr : r ∈ semanticResults qe docs lim) :
    ∃ d ∈ docs, ∃ e, d.embedding = some e ∧
      0.1 < cosineSimilarity (some (.arr qe)) (some e) ∧
      r = semResultOf d (cosineSimilarity (some (.arr qe)) (some e)) := by
  rw [semanticResults] at hr
  have hr2 := List.mem_of_mem_take hr
  rw [mem_sortDescBy] at hr2
  rw [semCandidates, List.mem_filterMap] at hr2
  rcases hr2 with ⟨d, hd, hfd⟩
  refine ⟨d, hd, ?_⟩
  cases hde : d.embedding with
  | none => rw [hde] at hfd; simp at hfd
  | some e =>
      rw [hde] at hfd
      simp only at hfd
      by_cases hsim : (0.1 : ℝ) < cosineSimilarity (some (.arr qe)) (some e)
      · rw [if_pos hsim] at hfd
        exact ⟨e, rfl, hsim, (Option.some_injective _ hfd).symm⟩
      · rw [if_neg hsim] at hfd
        simp at hfd

theorem cosineSimilarity_self (v : List ℝ) (h : ∃ x ∈ v, x ≠ 0) :
    cosineSimilarity (some (.arr v)) (some (.arr v)) = 1 := by
  have hpos := dotp_self_pos v h
  have hs : Real.sqrt (dotp v v) * Real.sqrt (dotp v v) = dotp v v :=
    Real.mul_self_sqrt (le_of_lt hpos)
  rw [cosineSimilarity, if_pos rfl, hs, if_neg (ne_of_gt hpos), div_self (ne_of_gt hpos)]

/-- Claim C1 (code bug): textSearch splices the raw query token into
new RegExp with no escaping.  For any engine on which the token of three
open parentheses fails to compile — as the JavaScript engine: an
unterminated group — the lexical path throws, the outer catch's retry
throws identically and is rethrown, and the POST handler answers 500: a
user-facing failure where the claim (and the spec's error taxonomy)
requires degradation to lexical results or an empty list. -/
theorem C1_regex_500 (reg : RegEngine) (lim : ℕ)
    (h : reg ['(', '(', '('] = none) :
    textSearch reg ['(', '(', '('] [⟨1, [], ['x'], 0, 0, 0, none⟩] lim =
      .error "SyntaxError: invalid regular expression" ∧
    search reg none ['(', '(', '('] [⟨1, [], ['x'], 0, 0, 0, none⟩] lim =
      .error "SyntaxError: invalid regular expression" ∧
    (apiSearchPost reg none ['(', '(', '('] lim
      [⟨1, [], ['x'], 0, 0, 0, none⟩]).status = 500 := by
  have hqw : queryWordsOf ['(', '(', '('] = [['(', '(', '(']] := by decide
  have hch : splitTextIntoChunks (toLowerL ['x']) 500 50 = [['x']] := by decide
  have h1 : chunkScoreOfE reg [['(', '(', '(']] ['x'] =
      .error "SyntaxError: invalid regular expression" := by
    simp only [chunkScoreOfE, chunkWordsE, h]
  have h2 : docMatchedChunksE reg [['(', '(', '(']] (toLowerL ['x']) =
      .error "SyntaxError: invalid regular expression" := by
    rw [docMatchedChunksE, hch]
    simp only [docChunksE, h1]
  have h3 : textCandidatesE reg ['(', '(', '(']
      [⟨1, [], ['x'], 0, 0, 0, none⟩] =
      .error "SyntaxError: invalid regular expression" := by
    rw [textCandidatesE, hqw]
    simp only [textDocsE]
    rw [if_pos (by decide : (⟨1, [], ['x'], 0, 0, 0, none⟩ : Doc).content ≠ [])]
    rw [h2]
  have h5 : textSearch reg ['(', '(', '(']
      [⟨1, [], ['x'], 0, 0, 0, none⟩] lim =
      .error "SyntaxError: invalid regular expression" := by
    rw [textSearch, textSearchE, h3]
  have h6 : search reg none ['(', '(', '(']
      [⟨1, [], ['x'], 0, 0, 0, none⟩] lim =
      .error "SyntaxError: invalid regular expression" := by
    simp only [search, h5]
  refine ⟨h5, h6, ?_⟩
  rw [apiSearchPost,
    if_neg (by decide : ¬ ((trimL ['(', '(', '(']).length = 0)),
    if_neg (by decide : ¬ ((trimL ['(', '(', '(']).length < 2))]
  have hga : getAllDocuments [(⟨1, [], ['x'], 0, 0, 0, none⟩ : Doc)] =
      [⟨1, [], ['x'], 0, 0, 0, none⟩] := rfl
  rw [hga, h6]

/-- Witness for the C1 failing-input theorem, at a concrete engine with
the pinned behavior. -/
theorem C1_regex_500_witness :
    ((fun _ => none : RegEngine) ['(', '(', '('] = none) ∧
    (apiSearchPost (fun _ => none) none ['(', '(', '('] 10
      [⟨1, [], ['x'], 0, 0, 0, none⟩]).status = 500 :=
  ⟨rfl, (C1_regex_500 (fun _ => none) 10 rfl).2.2⟩

/-- Helper: an enhanced row comes from some base row through a
successful enhancement. -/
theorem mem_enhanceAllE (regP : RegEngine) (q : Str) (base : List P3Result)
    (out : List P3Result) (h : enhanceAllE regP q base = .ok out) :
    ∀ y ∈ out, ∃ x, enhanceP3E regP q x = .ok y := by
  induction base generalizing out with
  | nil =>
      simp only [enhanceAllE] at h
      rw [← Except.ok.inj h]
      intro y hy
      simp at hy
  | cons r rs ih =>
      simp only [enhanceAllE] at h
      cases he : enhanceP3E regP q r with
      | error e => rw [he] at h; exact absurd h (by simp)
      | ok r2 =>
          rw [he] at h
          cases hrest : enhanceAllE regP q rs with
          | error e => rw [hrest] at h; exact absurd h (by simp)
          | ok rest =>
              rw [hrest] at h
              have hout : out = r2 :: rest := (Except.ok.inj h).symm
              intro y hy
              rw [hout] at hy
              rcases List.mem_cons.mp hy with hy | hy
              · exact ⟨r, by rw [he, hy]⟩
              · exact ih rest hrest y hy

/-- Claim C3: a query is served by exactly one scoring mode end-to-end.
Whenever search-service.js search returns a result list, it is either
exactly the semantic list (every score a cosine similarity against a
stored embedding) or exactly the lexical list (every score an integer
match-count sum) — never a mixture; this holds for every behavior of the
regex engine.  Whenever the part_003 service returns a list, the single
ranked list is ordered by one uniform key: each entry's own lexical
relevance score. -/
theorem C3_mode_purity :
    (∀ (reg : RegEngine) (provider : Option EmbedFn) (q : Str)
        (docs : List Doc) (lim : ℕ) (results : List SearchResult),
      search reg provider q docs lim = .ok results →
      (∃ qe, generateEmbedding provider q = some qe ∧
        results = semanticResults qe docs lim ∧
        ∀ r ∈ results, ∃ d ∈ docs, ∃ e,
          d.embedding = some e ∧
          r.score = cosineSimilarity (some (.arr qe)) (some e)) ∨
      (∃ core, textSearchE reg q docs lim = .ok core ∧
        results = core.map toSearchResult ∧
        ∀ r ∈ results, ∃ n : ℕ, r.score = (n : ℝ))) ∧
    (∀ (regP : RegEngine) (queryEmb : Option (List ℝ))
        (simRows : List P3Result) (chunks : List P3Chunk) (q : Str)
        (lim : ℕ) (out : List P3Result),
      part3search regP queryEmb simRows chunks q lim = .ok out →
      ∀ r ∈ out, ∃ rel,
        calculateRelevanceScoreE regP q r.content = .ok rel ∧
        r.relevanceScore = rnd2 rel) := by
  constructor
  · intro reg provider q docs lim results h
    have htext : ∀ rs, textSearch reg q docs lim = .ok rs →
        ∃ core, textSearchE reg q docs lim = .ok core ∧
          rs = core.map toSearchResult ∧
          ∀ r ∈ rs, ∃ n : ℕ, r.score = (n : ℝ) := by
      intro rs hrs
      rw [textSearch] at hrs
      cases hte : textSearchE reg q docs lim with
      | error e => rw [hte] at hrs; exact absurd hrs (by simp)
      | ok core =>
          rw [hte] at hrs
          have : rs = core.map toSearchResult := (Except.ok.inj hrs).symm
          refine ⟨core, rfl, this, ?_⟩
          intro r hr
          rw [this] at hr
          rcases List.mem_map.mp hr with ⟨r0, _, hre⟩
          exact ⟨r0.score, by rw [← hre]; rfl⟩
    cases provider with
    | none =>
        refine Or.inr ?_
        simp only [search] at h
        cases ht : textSearch reg q docs lim with
        | ok rs =>
            rw [ht] at h
            exact (Except.ok.inj h) ▸ htext rs ht
        | error e =>
            rw [ht] at h
            exact absurd h (by simp)
    | some f =>
        cases hs : semanticSearch (some f) q docs lim with
        | ok rs =>
            refine Or.inl ?_
            simp only [search, hs] at h
            have hrs : rs = results := Except.ok.inj h
            rw [semanticSearch] at hs
            cases hf : generateEmbedding (some f) q with
            | none => rw [hf] at hs; exact absurd hs (by simp)
            | some qe =>
                rw [hf] at hs
                have : semanticResults qe docs lim = rs := Except.ok.inj hs
                refine ⟨qe, rfl, by rw [← hrs, ← this], ?_⟩
                intro r hr
                rw [← hrs, ← this] at hr
                rcases mem_semanticResults qe docs lim r hr with
                  ⟨d, hd, e, hde, _, hre⟩
                exact ⟨d, hd, e, hde, by rw [hre]; rfl⟩
        | error e =>
            refine Or.inr ?_
            simp only [search, hs] at h
            cases ht : textSearch reg q docs lim with
            | ok rs =>
                rw [ht] at h
                exact (Except.ok.inj h) ▸ htext rs ht
            | error e2 =>
                rw [ht] at h
                exact absurd h (by simp)
  · intro regP queryEmb simRows chunks q lim out h
    have main : ∀ (enhanced : List P3Result),
        enhanceAllE regP q
            (match queryEmb with
              | some _ => simRows
              | none => (basicContentSearch q chunks lim).map p3OfScored) =
          .ok enhanced →
        out = sortDescBy (fun r : P3Result => r.relevanceScore) enhanced →
        ∀ r ∈ out, ∃ rel,
          calculateRelevanceScoreE regP q r.content = .ok rel ∧
          r.relevanceScore = rnd2 rel := by
      intro enhanced henh hout r hr
      rw [hout] at hr
      have hr2 := (mem_sortDescBy _ _ r).mp hr
      rcases mem_enhanceAllE regP q _ enhanced henh r hr2 with ⟨x, hx⟩
      rw [enhanceP3E] at hx
      cases hc : calculateRelevanceScoreE regP q x.content with
      | error e => rw [hc] at hx; exact absurd hx (by simp)
      | ok rel =>
          rw [hc] at hx
          have hrx := Except.ok.inj hx
          have hcontent : r.content = x.content := by rw [← hrx]
          refine ⟨rel, by rw [hcontent]; exact hc, by rw [← hrx]⟩
    cases queryEmb with
    | some qe0 =>
        simp only [part3search] at h
        cases henh : enhanceAllE regP q simRows with
        | error e => rw [henh] at h; exact absurd h (by simp)
        | ok enhanced =>
            rw [henh] at h
            exact main enhanced henh (Except.ok.inj h).symm
    | none =>
        simp only [part3search] at h
        cases henh : enhanceAllE regP q
            ((basicContentSearch q chunks lim).map p3OfScored) with
        | error e => rw [henh] at h; exact absurd h (by simp)
        | ok enhanced =>
            rw [henh] at h
            exact main enhanced henh (Except.ok.inj h).symm

/-- Witness for C3 at a concrete input: with no provider, a short query
and an empty corpus, search succeeds with the lexical (empty) list. -/
theorem C3_mode_purity_witness :
    search litB none ['z'] [] 10 = .ok ([] : List SearchResult) ∧
    textSearchE litB ['z'] [] 10 = .ok [] := by
  have hok : search litB none ['z'] [] 10 = .ok ([] : List SearchResult) := by
    have ht : textSearch litB ['z'] [] 10 = .ok [] :=
      textSearch_nil litB ['z'] [] 10 (by decide)
    simp only [search, ht]
  rcases C3_mode_purity.1 litB none ['z'] [] 10 [] hok with
    ⟨qe, hqe, _⟩ | ⟨core, hcore, heq, _⟩
  · exact absurd hqe (by simp [generateEmbedding])
  · have hnil : core = [] := by
      cases core with
      | nil => rfl
      | cons a t => simp at heq
    rw [hnil] at hcore
    exact ⟨hok, hcore⟩

/-- Claim C4: in semantic mode a result appears only when its cosine
similarity strictly exceeds the 0.1 threshold; a candidate at or below
the threshold is absent from the output rather than returned with a low
score. -/
theorem C4_semantic_threshold (qe : List ℝ) (docs : List Doc) (lim : ℕ) :
    (∀ r ∈ semanticResults qe docs lim, (0.1 : ℝ) < r.score) ∧
    (∀ d ∈ docs, ∀ e, d.embedding = some e →
      cosineSimilarity (some (.arr qe)) (some e) ≤ 0.1 →
      semResultOf d (cosineSimilarity (some (.arr qe)) (some e)) ∉
        semanticResults qe docs lim) := by
  have hmem : ∀ r ∈ semanticResults qe docs lim, (0.1 : ℝ) < r.score := by
    intro r hr
    rcases mem_semanticResults qe docs lim r hr with ⟨d, _, e, _, hsim, hre⟩
    rw [hre]
    exact hsim
  refine ⟨hmem, ?_⟩
  intro d _ e _ hle hcontra
  have := hmem _ hcontra
  have hscore : (semResultOf d
      (cosineSimilarity (some (.arr qe)) (some e))).score =
      cosineSimilarity (some (.arr qe)) (some e) := rfl
  rw [hscore] at this
  linarith

/-- Witness for C4 at a concrete input: one stored document whose
embedding equals the query embedding; its similarity 1 exceeds the
threshold and it is returned. -/
theorem C4_semantic_threshold_witness :
    (semResultOf ⟨1, [], [], 0, 0, 0, some (.arr [1])⟩ 1) ∈
      semanticResults [1] [⟨1, [], [], 0, 0, 0, some (.arr [1])⟩] 10 ∧
    (0.1 : ℝ) <
      (semResultOf ⟨1, [], [], 0, 0, 0, some (.arr [1])⟩ 1).score := by
  have hcos : cosineSimilarity (some (.arr [(1 : ℝ)])) (some (.arr [1])) = 1 :=
    cosineSimilarity_self [1] ⟨1, by simp, one_ne_zero⟩
  have hlist : semanticResults [1] [⟨1, [], [], 0, 0, 0, some (.arr [1])⟩] 10 =
      [semResultOf ⟨1, [], [], 0, 0, 0, some (.arr [1])⟩ 1] := by
    rw [semanticResults, semCandidates]
    simp only [List.filterMap_cons, List.filterMap_nil]
    rw [hcos]
    rw [if_pos (by norm_num : (0.1 : ℝ) < 1)]
    simp [sortDescBy, insertDescBy]
  have hmem : (semResultOf ⟨1, [], [], 0, 0, 0, some (.arr [1])⟩ 1) ∈
      semanticResults [1] [⟨1, [], [], 0, 0, 0, some (.arr [1])⟩] 10 := by
    rw [hlist]
    simp
  exact ⟨hmem,
    (C4_semantic_threshold [1] [⟨1, [], [], 0, 0, 0, some (.arr [1])⟩] 10).1
      _ hmem⟩

/-- Claim C5: cosine similarity is symmetric; self-similarity of a
non-zero vector is exactly 1 in the real-number model; and an absent,
unparseable, non-array or all-zero vector, or a dimension mismatch, gives
0 rather than an error. -/
theorem C5_cosine_props :
    (∀ a b, cosineSimilarity a b = cosineSimilarity b a) ∧
    (∀ v : List ℝ, (∃ x ∈ v, x ≠ 0) →
      cosineSimilarity (some (.arr v)) (some (.arr v)) = 1) ∧
    (∀ v : List ℝ, (∀ x ∈ v, x = 0) → ∀ b,
      cosineSimilarity (some (.arr v)) b = 0 ∧
      cosineSimilarity b (some (.arr v)) = 0) ∧
    (∀ b, cosineSimilarity none b = 0 ∧ cosineSimilarity b none = 0 ∧
      cosineSimilarity (some .malformed) b = 0 ∧
      cosineSimilarity b (some .malformed) = 0 ∧
      cosineSimilarity (some .notArray) b = 0 ∧
      cosineSimilarity b (some .notArray) = 0) ∧
    (∀ v w : List ℝ, v.length ≠ w.length →
      cosineSimilarity (some (.arr v)) (some (.arr w)) = 0) := by
  have hsymm : ∀ a b, cosineSimilarity a b = cosineSimilarity b a := by
    intro a b
    cases a with
    | none =>
        cases b with
        | none => rfl
        | some eb => cases eb <;> rfl
    | some ea =>
        cases b with
        | none => cases ea <;> rfl
        | some eb =>
            cases ea with
            | malformed => cases eb <;> rfl
            | notArray => cases eb <;> rfl
            | arr va =>
                cases eb with
                | malformed => rfl
                | notArray => rfl
                | arr vb =>
                    by_cases hl : va.length = vb.length
                    · simp only [cosineSimilarity, if_pos hl, if_pos hl.symm]
                      rw [dotp_comm va vb,
                        mul_comm (Real.sqrt (dotp vb vb)) (Real.sqrt (dotp va va))]
                    · have hl2 : ¬ (vb.length = va.length) :=
                        fun hh => hl hh.symm
                      simp only [cosineSimilarity, if_neg hl, if_neg hl2]
  have hzero : ∀ v : List ℝ, (∀ x ∈ v, x = 0) → ∀ b,
      cosineSimilarity (some (.arr v)) b = 0 := by
    intro v hv b
    cases b with
    | none => rfl
    | some eb =>
        cases eb with
        | malformed => rfl
        | notArray => rfl
        | arr w =>
            by_cases hl : v.length = w.length
            · simp only [cosineSimilarity, if_pos hl]
              rw [if_pos (by rw [dotp_self_zero v hv, Real.sqrt_zero, zero_mul])]
            · simp only [cosineSimilarity, if_neg hl]
  have hnone : ∀ b, cosineSimilarity none b = 0 := by
    intro b
    cases b with
    | none => rfl
    | some eb => cases eb <;> rfl
  have hmal : ∀ b, cosineSimilarity (some .malformed) b = 0 := by
    intro b
    cases b with
    | none => rfl
    | some eb => cases eb <;> rfl
  have hna : ∀ b, cosineSimilarity (some .notArray) b = 0 := by
    intro b
    cases b with
    | none => rfl
    | some eb => cases eb <;> rfl
  refine ⟨hsymm, cosineSimilarity_self, ?_, ?_, ?_⟩
  · intro v hv b
    exact ⟨hzero v hv b, by rw [hsymm]; exact hzero v hv b⟩
  · intro b
    exact ⟨hnone b, by rw [hsymm]; exact hnone b, hmal b,
      by rw [hsymm]; exact hmal b, hna b, by rw [hsymm]; exact hna b⟩
  · intro v w hl
    simp only [cosineSimilarity, if_neg hl]

/-- Witness for C5 at a concrete input: the non-zero vector (3, 4) has
self-similarity 1. -/
theorem C5_cosine_props_witness :
    (∃ x ∈ [(3 : ℝ), 4], x ≠ 0) ∧
    cosineSimilarity (some (.arr [(3 : ℝ), 4])) (some (.arr [3, 4])) = 1 := by
  have hx : ∃ x ∈ [(3 : ℝ), 4], x ≠ 0 := ⟨3, by simp, by norm_num⟩
  exact ⟨hx, C5_cosine_props.2.1 [3, 4] hx⟩

/-- Counterexample for C2 as stated: the query "a" (one non-whitespace
character) is answered by the POST /api/search endpoint with a 400 error
response, not with an empty result list. -/
theorem C2_cex :
    (apiSearchPost litB none ['a'] 10 []).status = 400 ∧
    (apiSearchPost litB none ['a'] 10 []).error = some "Search query too short" := by
  constructor <;> rfl

/-- Claim C2 as amended: the HTTP layer rejects queries with fewer than 2
non-whitespace characters with a 400 error carrying a message, while the
service-level lexical search over any corpus returns the empty list for
such queries (no query token survives the length filter, so no regex is
ever built and no engine behavior matters), and the orchestrated search
without a provider therefore returns an empty success. -/
theorem C2_short_query (reg : RegEngine) (provider : Option EmbedFn)
    (q : Str) (lim : ℕ) (db docs : List Doc) (h : countNonWs q < 2) :
    (apiSearchPost reg provider q lim db).status = 400 ∧
    (apiSearchPost reg provider q lim db).error.isSome = true ∧
    textSearch reg q docs lim = .ok ([] : List SearchResult) ∧
    search reg none q docs lim = .ok ([] : List SearchResult) := by
  have htrim := trimL_short q h
  have hqw : queryWordsOf q = [] := queryWordsOf_nil q h
  have htext : textSearch reg q docs lim = .ok ([] : List SearchResult) :=
    textSearch_nil reg q docs lim hqw
  have hsearch : search reg none q docs lim = .ok ([] : List SearchResult) := by
    simp only [search, htext]
  by_cases h0 : (trimL q).length = 0
  · rw [apiSearchPost, if_pos h0]
    exact ⟨rfl, rfl, htext, hsearch⟩
  · rw [apiSearchPost, if_neg h0, if_pos (by omega)]
    exact ⟨rfl, rfl, htext, hsearch⟩

/-- Witness for the amended C2 at a concrete input: the single-letter
query. -/
theorem C2_short_query_witness :
    countNonWs ['a'] < 2 ∧
    ((apiSearchPost litB none ['a'] 10 []).status = 400 ∧
      (apiSearchPost litB none ['a'] 10 []).error.isSome = true ∧
      textSearch litB ['a'] [] 10 = .ok ([] : List SearchResult) ∧
      search litB none ['a'] [] 10 = .ok ([] : List SearchResult)) :=
  ⟨by decide, C2_short_query litB none ['a'] 10 [] [] (by decide)⟩

/-- Claim C6 (code bug): the character chunker returns one empty chunk for
a whitespace-only input — the early single-chunk return skips the
non-blank check that its own main loop applies, so the output is neither
the empty sequence nor all-non-blank. -/
theorem C6_ws_chunk_bug :
    splitIntoChunks [' '] 1000 100 = [([] : Str)] ∧
    ∃ c ∈ splitIntoChunks [' '] 1000 100, trimL c = [] := by
  exact ⟨by decide, ⟨[], by decide, rfl⟩⟩

/-- Counterexample for C7 as stated: for the input with an interior tab
the single returned chunk is the whitespace-normalized text, not the
merely trimmed input. -/
theorem C7_cex :
    splitIntoChunks ['a', '\t', 'b'] 1000 100 = [['a', ' ', 'b']] ∧
    trimL ['a', '\t', 'b'] = ['a', '\t', 'b'] ∧
    (['a', ' ', 'b'] : Str) ≠ ['a', '\t', 'b'] := by
  exact ⟨by decide, by decide, by decide⟩

/-- Claim C7 as amended: for non-empty input whose normalized content is
no longer than the target chunk size, the chunker returns exactly one
chunk equal to the normalized (line endings unified, tabs to spaces,
whitespace runs collapsed, trimmed) input. -/
theorem C7_single_chunk (t : Str) (cs ov : ℕ) (h1 : t ≠ [])
    (h2 : (normalizeText t).length ≤ cs) :
    splitIntoChunks t cs ov = [normalizeText t] := by
  simp [splitIntoChunks, h1, h2]

/-- Witness for the amended C7 at a concrete input. -/
theorem C7_single_chunk_witness :
    (['h', 'i'] : Str) ≠ [] ∧ (normalizeText ['h', 'i']).length ≤ 1000 ∧
    splitIntoChunks ['h', 'i'] 1000 100 = [normalizeText ['h', 'i']] :=
  ⟨by decide, by decide,
    C7_single_chunk ['h', 'i'] 1000 100 (by decide) (by decide)⟩

/-- Claim C8 (code bug): the part_003 search applies no filter after
re-scoring, so a returned row can carry a lexical relevance score of
exactly 0.  With no API key, query "a b" over a single stored chunk "a":
basicContentSearch keeps the chunk (contains-count 1), but the relevance
re-score is 0 (no phrase, no word longer than 2 characters, no bigram) —
and the row is returned with relevanceScore 0 regardless of the engine
(no long word ever reaches the regex constructor). -/
theorem C8_zero_row (regP : RegEngine) :
    ∃ out, part3search regP none [] [⟨1, 1, 0, [], ['a']⟩]
        ['a', ' ', 'b'] 10 = .ok out ∧
      out.map (fun r => r.relevanceScore) = [0] := by
  have hbase : (basicContentSearch ['a', ' ', 'b'] [⟨1, 1, 0, [], ['a']⟩] 10).map
      p3OfScored = [⟨1, 1, 0, [], ['a'], (1 : ℕ), 0, []⟩] := by
    have hb : basicContentSearch ['a', ' ', 'b'] [⟨1, 1, 0, [], ['a']⟩] 10 =
        [⟨1, 1, 0, [], ['a'], 1⟩] := by decide
    rw [hb]
    rfl
  have hraw : rawRelevanceE regP ['a', ' ', 'b'] ['a'] = .ok 0 := by
    have hcw : calcWordsE regP (toLowerL ['a'])
        (splitWsJS (toLowerL ['a', ' ', 'b'])) 0 = .ok 0 := by
      have hsplit : splitWsJS (toLowerL ['a', ' ', 'b']) = [['a'], ['b']] := by
        decide
      rw [hsplit]
      simp only [calcWordsE]
      norm_num
    rw [rawRelevanceE]
    rw [show (if containsSub (toLowerL ['a', ' ', 'b']) (toLowerL ['a'])
        then 10 else 0) = 0 from by decide]
    rw [hcw]
    rw [show bigramBonus (toLowerL ['a'])
        (splitWsJS (toLowerL ['a', ' ', 'b'])) = 0 from by decide]
  have hcalc : calculateRelevanceScoreE regP ['a', ' ', 'b'] ['a'] =
      .ok 0 := by
    simp only [calculateRelevanceScoreE, hraw]
    rw [if_pos (by decide : 0 < (splitWsJS (toLowerL ['a'])).length)]
    norm_num
  have hrnd : rnd2 0 = 0 := by
    rw [rnd2]
    norm_num
  have henh : enhanceP3E regP ['a', ' ', 'b']
      ⟨1, 1, 0, [], ['a'], (1 : ℕ), 0, []⟩ =
      .ok ⟨1, 1, 0, [], ['a'], (1 : ℕ), 0,
        createExcerpt ['a'] ['a', ' ', 'b'] 200⟩ := by
    simp only [enhanceP3E, hcalc, hrnd]
  refine ⟨[⟨1, 1, 0, [], ['a'], (1 : ℕ), 0,
    createExcerpt ['a'] ['a', ' ', 'b'] 200⟩], ?_, by simp⟩
  simp only [part3search, hbase]
  rw [show enhanceAllE regP ['a', ' ', 'b']
      [⟨1, 1, 0, [], ['a'], (1 : ℕ), 0, []⟩] =
      .ok [⟨1, 1, 0, [], ['a'], (1 : ℕ), 0,
        createExcerpt ['a'] ['a', ' ', 'b'] 200⟩] from by
    simp only [enhanceAllE, henh]]
  simp [sortDescBy, insertDescBy]

/-- Claim C9 as amended: whenever textSearch returns a result list it has
at most limit entries, ordered by non-increasing score, and results with
equal scores keep the order of the candidate list built while scanning
the documents — which getAllDocuments supplies sorted by upload time,
most recent first (later-inserted first, not earlier-inserted first).
This holds for every behavior of the regex engine. -/
theorem C9_rank_order (reg : RegEngine) (q : Str) (docs : List Doc)
    (lim : ℕ) :
    (∀ out, textSearch reg q docs lim = .ok out →
      out.length ≤ lim ∧ out.Pairwise (fun a b => b.score ≤ a.score)) ∧
    (∀ cands, textCandidatesE reg q docs = .ok cands →
      ∀ s : ℕ,
        (sortDescBy (fun r : TextResultN => r.score) cands).filter
            (fun r => r.score = s) =
          cands.filter (fun r => r.score = s)) := by
  constructor
  · intro out hout
    rw [textSearch] at hout
    cases hte : textSearchE reg q docs lim with
    | error e => rw [hte] at hout; exact absurd hout (by simp)
    | ok core =>
        rw [hte] at hout
        have hcore : out = core.map toSearchResult :=
          (Except.ok.inj hout).symm
        rw [textSearchE] at hte
        cases htc : textCandidatesE reg q docs with
        | error e => rw [htc] at hte; exact absurd hte (by simp)
        | ok cands =>
            rw [htc] at hte
            have hcore2 : core =
                (sortDescBy (fun r : TextResultN => r.score) cands).take lim :=
              (Except.ok.inj hte).symm
            constructor
            · rw [hcore, List.length_map, hcore2]
              exact List.length_take_le _ _
            · rw [hcore, List.pairwise_map, hcore2]
              have hp := pairwise_sortDescBy (fun r : TextResultN => r.score)
                cands
              have hsub : ((sortDescBy (fun r : TextResultN => r.score)
                  cands).take lim).Sublist
                  (sortDescBy (fun r : TextResultN => r.score) cands) :=
                List.take_sublist _ _
              exact (hp.sublist hsub).imp
                (fun h => by exact_mod_cast Nat.cast_le.mpr h)
  · intro cands _ s
    exact filter_sortDescBy _ _ _

/-- Witness for the amended C9 at a concrete input: two equally-scoring
documents in upload-time order, all query tokens word characters (litB is
forced there). -/
theorem C9_rank_order_witness :
    textSearch litB ['c', 'a', 't', 's']
      [⟨2, [], ['c', 'a', 't', 's'], 1, 1, 2, none⟩,
        ⟨1, [], ['c', 'a', 't', 's'], 1, 1, 1, none⟩] 10 =
      .ok [toSearchResult ⟨2, [], ['c', 'a', 't', 's'], 1, 1, 2, 1,
          [⟨['c', 'a', 't', 's'], 1, [['c', 'a', 't', 's']]⟩]⟩,
        toSearchResult ⟨1, [], ['c', 'a', 't', 's'], 1, 1, 1, 1,
          [⟨['c', 'a', 't', 's'], 1, [['c', 'a', 't', 's']]⟩]⟩] ∧
    ([toSearchResult (⟨2, [], ['c', 'a', 't', 's'], 1, 1, 2, 1,
          [⟨['c', 'a', 't', 's'], 1, [['c', 'a', 't', 's']]⟩]⟩ : TextResultN),
        toSearchResult ⟨1, [], ['c', 'a', 't', 's'], 1, 1, 1, 1,
          [⟨['c', 'a', 't', 's'], 1, [['c', 'a', 't', 's']]⟩]⟩]).length ≤ 10 ∧
    ([toSearchResult (⟨2, [], ['c', 'a', 't', 's'], 1, 1, 2, 1,
          [⟨['c', 'a', 't', 's'], 1, [['c', 'a', 't', 's']]⟩]⟩ : TextResultN),
        toSearchResult ⟨1, [], ['c', 'a', 't', 's'], 1, 1, 1, 1,
          [⟨['c', 'a', 't', 's'], 1, [['c', 'a', 't', 's']]⟩]⟩]).Pairwise
      (fun a b => b.score ≤ a.score) ∧
    textCandidatesE litB ['c', 'a', 't', 's']
      [⟨2, [], ['c', 'a', 't', 's'], 1, 1, 2, none⟩,
        ⟨1, [], ['c', 'a', 't', 's'], 1, 1, 1, none⟩] =
      .ok [⟨2, [], ['c', 'a', 't', 's'], 1, 1, 2, 1,
          [⟨['c', 'a', 't', 's'], 1, [['c', 'a', 't', 's']]⟩]⟩,
        ⟨1, [], ['c', 'a', 't', 's'], 1, 1, 1, 1,
          [⟨['c', 'a', 't', 's'], 1, [['c', 'a', 't', 's']]⟩]⟩] ∧
    (sortDescBy (fun r : TextResultN => r.score)
        [⟨2, [], ['c', 'a', 't', 's'], 1, 1, 2, 1,
          [⟨['c', 'a', 't', 's'], 1, [['c', 'a', 't', 's']]⟩]⟩,
          ⟨1, [], ['c', 'a', 't', 's'], 1, 1, 1, 1,
            [⟨['c', 'a', 't', 's'], 1, [['c', 'a', 't', 's']]⟩]⟩]).filter
        (fun r => r.score = 1) =
      ([⟨2, [], ['c', 'a', 't', 's'], 1, 1, 2, 1,
          [⟨['c', 'a', 't', 's'], 1, [['c', 'a', 't', 's']]⟩]⟩,
          ⟨1, [], ['c', 'a', 't', 's'], 1, 1, 1, 1,
            [⟨['c', 'a', 't', 's'], 1, [['c', 'a', 't', 's']]⟩]⟩] :
        List TextResultN).filter (fun r => r.score = 1) := by
  have hc : textCandidatesE litB ['c', 'a', 't', 's']
      [⟨2, [], ['c', 'a', 't', 's'], 1, 1, 2, none⟩,
        ⟨1, [], ['c', 'a', 't', 's'], 1, 1, 1, none⟩] =
      .ok [⟨2, [], ['c', 'a', 't', 's'], 1, 1, 2, 1,
          [⟨['c', 'a', 't', 's'], 1, [['c', 'a', 't', 's']]⟩]⟩,
        ⟨1, [], ['c', 'a', 't', 's'], 1, 1, 1, 1,
          [⟨['c', 'a', 't', 's'], 1, [['c', 'a', 't', 's']]⟩]⟩] := by decide
  have he : textSearchE litB ['c', 'a', 't', 's']
      [⟨2, [], ['c', 'a', 't', 's'], 1, 1, 2, none⟩,
        ⟨1, [], ['c', 'a', 't', 's'], 1, 1, 1, none⟩] 10 =
      .ok [⟨2, [], ['c', 'a', 't', 's'], 1, 1, 2, 1,
          [⟨['c', 'a', 't', 's'], 1, [['c', 'a', 't', 's']]⟩]⟩,
        ⟨1, [], ['c', 'a', 't', 's'], 1, 1, 1, 1,
          [⟨['c', 'a', 't', 's'], 1, [['c', 'a', 't', 's']]⟩]⟩] := by decide
  have ht : textSearch litB ['c', 'a', 't', 's']
      [⟨2, [], ['c', 'a', 't', 's'], 1, 1, 2, none⟩,
        ⟨1, [], ['c', 'a', 't', 's'], 1, 1, 1, none⟩] 10 =
      .ok [toSearchResult ⟨2, [], ['c', 'a', 't', 's'], 1, 1, 2, 1,
          [⟨['c', 'a', 't', 's'], 1, [['c', 'a', 't', 's']]⟩]⟩,
        toSearchResult ⟨1, [], ['c', 'a', 't', 's'], 1, 1, 1, 1,
          [⟨['c', 'a', 't', 's'], 1, [['c', 'a', 't', 's']]⟩]⟩] := by
    rw [textSearch, he]
    rfl
  have hmain := (C9_rank_order litB ['c', 'a', 't', 's']
    [⟨2, [], ['c', 'a', 't', 's'], 1, 1, 2, none⟩,
      ⟨1, [], ['c', 'a', 't', 's'], 1, 1, 1, none⟩] 10)
  exact ⟨ht, (hmain.1 _ ht).1, (hmain.1 _ ht).2, hc, hmain.2 _ hc 1⟩

/-- Counterexample for C9 as stated: two documents inserted in order 1
then 2 with identical content and equal scores; getAllDocuments hands
them to textSearch newest-first, and the stable sort keeps the
later-inserted document ahead of the earlier one. -/
theorem C9_cex :
    (textSearchE litB ['c', 'a', 't', 's']
        (getAllDocuments
          [⟨1, [], ['c', 'a', 't', 's'], 1, 1, 1, none⟩,
            ⟨2, [], ['c', 'a', 't', 's'], 1, 1, 2, none⟩]) 10).map
      (fun core => core.map (fun r => (r.id, r.score, r.uploadedAt))) =
      .ok [(2, 1, 2), (1, 1, 1)] := by
  decide

/-!
Floor arithmetic for the excerpt window offsets.
-/

theorem floorQ_natCast (n : ℕ) : floorQ (n : ℚ) = n := by
  simp [floorQ]

theorem floorQ_half_shift (n : ℕ) : floorQ ((n : ℚ) + 1 / 2) = n := by
  rw [floorQ]
  have h : ⌊(n : ℚ) + 1 / 2⌋ = (n : ℤ) := by
    rw [Int.floor_eq_iff]
    constructor
    · push_cast
      linarith
    · push_cast
      linarith
  rw [h]
  simp

theorem startQ_max_pos (idx m : ℕ) (h : m < 2 * idx) :
    max 0 ((idx : ℚ) - m / 2) = (idx : ℚ) - m / 2 := by
  rw [max_eq_right]
  have h2 : (m : ℚ) < 2 * idx := by exact_mod_cast h
  linarith

theorem startQ_max_zero (idx m : ℕ) (h : ¬ m < 2 * idx) :
    max 0 ((idx : ℚ) - m / 2) = 0 := by
  rw [max_eq_left]
  have h2 : 2 * (idx : ℚ) ≤ m := by exact_mod_cast not_lt.mp h
  linarith

theorem startQ_pos_iff (idx m : ℕ) :
    (0 : ℚ) < max 0 ((idx : ℚ) - m / 2) ↔ m < 2 * idx := by
  constructor
  · intro h
    by_contra hn
    rw [startQ_max_zero idx m hn] at h
    exact lt_irrefl _ h
  · intro h
    rw [startQ_max_pos idx m h]
    have h2 : (m : ℚ) < 2 * idx := by exact_mod_cast h
    linarith

theorem floorQ_startQ (idx m : ℕ) :
    floorQ (max 0 ((idx : ℚ) - m / 2)) = idx - (m + 1) / 2 := by
  by_cases hpos : m < 2 * idx
  · rw [startQ_max_pos idx m hpos]
    rcases Nat.even_or_odd m with ⟨k, hk⟩ | ⟨k, hk⟩
    · subst hk
      have hle : k ≤ idx := by omega
      have hval : (idx : ℚ) - (k + k : ℕ) / 2 = ((idx - k : ℕ) : ℚ) := by
        rw [Nat.cast_sub hle]
        push_cast
        ring
      rw [hval, floorQ_natCast]
      omega
    · subst hk
      have hle : k + 1 ≤ idx := by omega
      have hval : (idx : ℚ) - (2 * k + 1 : ℕ) / 2 =
          ((idx - (k + 1) : ℕ) : ℚ) + 1 / 2 := by
        rw [Nat.cast_sub hle]
        push_cast
        ring
      rw [hval, floorQ_half_shift]
      omega
  · rw [startQ_max_zero idx m hpos]
    have h0 : floorQ 0 = 0 := by simp [floorQ]
    rw [h0]
    omega

theorem floorQ_endQ (L idx m : ℕ) :
    floorQ (min (L : ℚ) (max 0 ((idx : ℚ) - m / 2) + m)) =
      min L (if m < 2 * idx then idx + m / 2 else m) := by
  by_cases hpos : m < 2 * idx
  · rw [if_pos hpos, startQ_max_pos idx m hpos]
    rcases Nat.even_or_odd m with ⟨k, hk⟩ | ⟨k, hk⟩
    · subst hk
      have hval : (idx : ℚ) - (k + k : ℕ) / 2 + (k + k : ℕ) =
          ((idx + k : ℕ) : ℚ) := by
        push_cast
        ring
      rw [hval]
      have hmin : min (L : ℚ) ((idx + k : ℕ) : ℚ) =
          ((min L (idx + k) : ℕ) : ℚ) := by
        push_cast
        rfl
      rw [hmin, floorQ_natCast]
      congr 1
      omega
    · subst hk
      have hval : (idx : ℚ) - (2 * k + 1 : ℕ) / 2 + (2 * k + 1 : ℕ) =
          ((idx + k : ℕ) : ℚ) + 1 / 2 := by
        push_cast
        ring
      rw [hval]
      by_cases hcmp : idx + k < L
      · have hmin : min (L : ℚ) (((idx + k : ℕ) : ℚ) + 1 / 2) =
            ((idx + k : ℕ) : ℚ) + 1 / 2 := by
          rw [min_eq_right]
          have h2 : ((idx + k : ℕ) : ℚ) + 1 ≤ L := by
            exact_mod_cast hcmp
          linarith
        rw [hmin, floorQ_half_shift]
        omega
      · have hmin : min (L : ℚ) (((idx + k : ℕ) : ℚ) + 1 / 2) = (L : ℚ) := by
          rw [min_eq_left]
          have h2 : (L : ℚ) ≤ ((idx + k : ℕ) : ℚ) := by
            exact_mod_cast not_lt.mp hcmp
          linarith
        rw [hmin, floorQ_natCast]
        omega
  · rw [if_neg hpos, startQ_max_zero idx m hpos, zero_add]
    have hmin : min (L : ℚ) ((m : ℕ) : ℚ) = ((min L m : ℕ) : ℚ) := by
      push_cast
      rfl
    rw [hmin, floorQ_natCast]

theorem endQ_lt_iff (L idx m : ℕ) :
    min (L : ℚ) (max 0 ((idx : ℚ) - m / 2) + m) < L ↔
      (if m < 2 * idx then 2 * idx + m < 2 * L else m < L) := by
  by_cases hpos : m < 2 * idx
  · rw [if_pos hpos, startQ_max_pos idx m hpos]
    constructor
    · intro h
      rcases min_lt_iff.mp h with h | h
      · exact absurd h (lt_irrefl _)
      · have : (2 * idx + m : ℚ) < 2 * L := by linarith
        exact_mod_cast this
    · intro h
      apply min_lt_iff.mpr
      right
      have h2 : (2 * idx + m : ℚ) < 2 * L := by exact_mod_cast h
      linarith
  · rw [if_neg hpos, startQ_max_zero idx m hpos, zero_add]
    constructor
    · intro h
      rcases min_lt_iff.mp h with h | h
      · exact absurd h (lt_irrefl _)
      · exact_mod_cast h
    · intro h
      apply min_lt_iff.mpr
      right
      exact_mod_cast h

/-- Claim C10 as amended: with a case-insensitive occurrence at index idx,
the excerpt is the window from idx - (maxLength+1)/2 to
min(length, idx + maxLength/2) (or to maxLength when 2·idx ≤ maxLength),
at most maxLength characters, with the leading ellipsis present iff
maxLength < 2·idx — the raw fractional start offset is positive — which
for odd maxLength can hold even though the emitted window starts at the
text's beginning; the trailing ellipsis is present iff the raw end offset
falls short of the text length.  Without an occurrence, the excerpt is the
first maxLength characters with a trailing ellipsis iff truncated. -/
theorem C10_excerpt (content q : Str) (m : ℕ) :
    (∀ idx, indexOfSub (toLowerL content) (toLowerL q) = some idx →
      createExcerpt content q m =
        (if m < 2 * idx then dotsE else [])
        ++ substrN content (idx - (m + 1) / 2)
             (min content.length (if m < 2 * idx then idx + m / 2 else m))
        ++ (if (if m < 2 * idx then 2 * idx + m < 2 * content.length
                else m < content.length) then dotsE else []) ∧
      (substrN content (idx - (m + 1) / 2)
        (min content.length (if m < 2 * idx then idx + m / 2 else m))).length
        ≤ m) ∧
    (indexOfSub (toLowerL content) (toLowerL q) = none →
      createExcerpt content q m =
        substrN content 0 m ++ (if m < content.length then dotsE else [])) := by
  constructor
  · intro idx h
    constructor
    · simp only [createExcerpt, h]
      rw [floorQ_startQ idx m, floorQ_endQ content.length idx m]
      rw [if_congr (startQ_pos_iff idx m) rfl rfl]
      rw [if_congr (endQ_lt_iff content.length idx m) rfl rfl]
      by_cases h1 : m < 2 * idx
      · simp only [h1, if_true]
        by_cases h2 : 2 * idx + m < 2 * content.length <;> simp [h2]
      · simp only [h1, if_false]
        by_cases h2 : m < content.length <;> simp [h2]
    · simp only [substrN, List.length_drop, List.length_take]
      by_cases h1 : m < 2 * idx <;> simp only [h1, if_true, if_false] <;> omega
  · intro h
    simp only [createExcerpt, h]

/-- Counterexample for C10 as stated: text "ab", query "b", maxLength 1.
The emitted window substring(0, 1) starts at the very beginning of the
text, yet the excerpt carries a leading ellipsis marker (the raw start
offset 0.5 is positive but truncates to 0). -/
theorem C10_cex :
    createExcerpt ['a', 'b'] ['b'] 1 = dotsE ++ ['a'] ++ dotsE ∧
    substrN ['a', 'b'] 0 1 = ['a'] := by
  have hidx : indexOfSub (toLowerL ['a', 'b']) (toLowerL ['b']) = some 1 := by
    decide
  constructor
  · simp only [createExcerpt, hidx]
    have hmax : max (0 : ℚ) (((1 : ℕ) : ℚ) - ((1 : ℕ) : ℚ) / 2) = 1 / 2 := by
      norm_num
    rw [hmax]
    have hmin : min ((['a', 'b'] : Str).length : ℚ)
        ((1 : ℚ) / 2 + ((1 : ℕ) : ℚ)) = 3 / 2 := by
      norm_num
    rw [hmin]
    have hf1 : floorQ (1 / 2 : ℚ) = 0 := by
      rw [floorQ]
      norm_num
    have hf2 : floorQ (3 / 2 : ℚ) = 1 := by
      rw [floorQ]
      norm_num
    rw [hf1, hf2]
    rw [if_pos (by norm_num : (0 : ℚ) < 1 / 2)]
    rw [if_pos (by norm_num : (3 / 2 : ℚ) < ((['a', 'b'] : Str).length : ℚ))]
    decide
  · decide

/-- Witness for the amended C10 at a concrete input: text "ab", query "b",
maxLength 2 — the occurrence index is 1 and the excerpt is the whole text
with no markers. -/
theorem C10_excerpt_witness :
    indexOfSub (toLowerL ['a', 'b']) (toLowerL ['b']) = some 1 ∧
    createExcerpt ['a', 'b'] ['b'] 2 = ['a', 'b'] := by
  have h := ((C10_excerpt ['a', 'b'] ['b'] 2).1 1 (by decide)).1
  exact ⟨by decide, h.trans (by decide)⟩
